import Mathlib

/-!
Verification of the retrying transaction executor of `arsham/dbtools`.

The development shallowly embeds the current executor (`PGX` in the
repository: `New`, `PGX.Transaction`, `PGX.rollbackWithErr`) together with
the error values it builds (`fmt.Errorf` with `%w`, `errors.Join`,
`*retry.StopError`) and the observable calls it makes on the connection
pool and the transaction handle (`Begin`, the step functions, `Rollback`,
`Commit`).  Database behaviour is an oracle (`Env`): for each attempt it
fixes the result of `Begin`, of each step, of `Rollback` and of `Commit`,
and whether the caller's context is observed as cancelled before each step.

The retry scheduler (`retry.Retry.DoContext` from `github.com/arsham/retry/v3`)
is an external collaborator whose source is not part of the repository; it is
modelled from the spec (see `doContextFrom`).
-/

namespace DbTools

/-- Go error values as built by the executor: `base` is a leaf error
(sentinels such as `ErrEmptyDatabase`, `errPanic`, `context.Canceled`, and
caller-supplied errors), `wrap msg e` is `fmt.Errorf("msg: %w", e)` (the
string field records the non-wrapped text), `wrap2 s a b` is an
`fmt.Errorf` with two `%w` verbs (used for panic conversion, `s` holds the
stack trace), `stop e` is `&retry.StopError{Err: e}`, and `join1`/`join2`
are `errors.Join` of one and two non-nil errors. -/
inductive GoErr where
  | base : String → GoErr
  | wrap : String → GoErr → GoErr
  | wrap2 : String → GoErr → GoErr → GoErr
  | stop : GoErr → GoErr
  | join1 : GoErr → GoErr
  | join2 : GoErr → GoErr → GoErr
deriving DecidableEq, Repr

/-- Sentinel returned when the connection provider is nil (`ErrEmptyDatabase`
in the repository; its message is defined outside `src`, the identity of the
value is all that matters). -/
def ErrEmptyDatabase : GoErr := .base "empty database"

/-- Sentinel marking panic-converted errors (`errPanic` in the repository). -/
def errPanic : GoErr := .base "panic in transaction"

/-- The `context.Canceled` sentinel of Go's standard library. -/
def ctxCanceled : GoErr := .base "context canceled"

/-- Go's `errors.Is(e, target)`: compare the error itself, then every error
reachable through `Unwrap` (single or multi), with the target. -/
def goIs : GoErr → GoErr → Bool
  | .base s, t => decide (GoErr.base s = t)
  | .wrap m c, t => decide (GoErr.wrap m c = t) || goIs c t
  | .wrap2 m c1 c2, t => decide (GoErr.wrap2 m c1 c2 = t) || goIs c1 t || goIs c2 t
  | .stop c, t => decide (GoErr.stop c = t) || goIs c t
  | .join1 c, t => decide (GoErr.join1 c = t) || goIs c t
  | .join2 c1 c2, t => decide (GoErr.join2 c1 c2 = t) || goIs c1 t || goIs c2 t

/-- Whether `errors.As(e, **retry.StopError)` succeeds: a `stop` node is
reachable through the unwrap chain. -/
def containsStop : GoErr → Bool
  | .base _ => false
  | .wrap _ c => containsStop c
  | .wrap2 _ c1 c2 => containsStop c1 || containsStop c2
  | .stop _ => true
  | .join1 c => containsStop c
  | .join2 c1 c2 => containsStop c1 || containsStop c2

/-- The `Err` field of the first `*retry.StopError` found by `errors.As`
(pre-order traversal, as Go's `errors.As` walks the unwrap tree). -/
def firstStop : GoErr → Option GoErr
  | .base _ => none
  | .wrap _ c => firstStop c
  | .wrap2 _ c1 c2 => (firstStop c1).orElse fun _ => firstStop c2
  | .stop c => some c
  | .join1 c => firstStop c
  | .join2 c1 c2 => (firstStop c1).orElse fun _ => firstStop c2

/-- Which context value a pool/transaction call receives: the caller's
context, or a fresh `context.WithTimeout(context.Background(), gracePeriod)`
context. -/
inductive CtxKind where
  | caller : CtxKind
  | grace : CtxKind
deriving DecidableEq, Repr

/-- Observable calls the executor makes on the pool and the transaction
handle during one attempt. -/
inductive Call where
  | begin : Call
  | step : Nat → Call
  | rollback : CtxKind → Call
  | commit : Call
deriving DecidableEq, Repr

/-- Whether a call is a rollback (with either context). -/
def isRollback : Call → Bool
  | .rollback _ => true
  | _ => false

/-- Outcome of invoking one step function: it returns nil, returns an error,
panics with an error value, or panics with a non-error value.  The `String`
arguments carry the panic message and the `debug.Stack()` trace. -/
inductive StepOut where
  | ok : StepOut
  | err : GoErr → StepOut
  | panicErrVal : GoErr → String → StepOut
  | panicNonErr : String → String → StepOut
deriving DecidableEq, Repr

/-- Whether the step function panicked. -/
def isPanic : StepOut → Bool
  | .panicErrVal _ _ => true
  | .panicNonErr _ _ => true
  | _ => false

/-- Database/context oracle for one attempt: result of `pool.Begin`, whether
`ctx.Done()` is observed before step `j`, the outcome of step `j`, and the
results of `tx.Rollback` and `tx.Commit` if called. -/
structure AttemptEnv where
  beginErr : Option GoErr
  cancelledBefore : Nat → Bool
  stepOut : Nat → StepOut
  rollbackErr : Option GoErr
  commitErr : Option GoErr

/-- Oracle for a whole `Transaction` call: the per-attempt oracles, whether
the scheduler observes the caller's context as cancelled between attempt
`i-1` and attempt `i`, and the value of `ctx.Err()` once cancelled. -/
structure Env where
  attempt : Nat → AttemptEnv
  cancelledBetween : Nat → Bool
  ctxErr : GoErr

/-- The error produced by running one step, `nil` on success.  A recovered
panic is converted exactly as in `PGX.Transaction` (part_007 lines 92-105):
an error value `x` becomes `fmt.Errorf("%w: %w\n%s", errPanic, x, stack)`
and any other value becomes `fmt.Errorf("%w: %s\n%s", errPanic, r, stack)`
(only `errPanic` is wrapped there). -/
def stepErrOf : StepOut → Option GoErr
  | .ok => none
  | .err e => some e
  | .panicErrVal x stack => some (.wrap2 stack errPanic x)
  | .panicNonErr msg stack => some (.wrap (msg ++ "\n" ++ stack) errPanic)

/-- The conversion applied to a non-nil step error before rolling back
(part_007 lines 110-112): errors satisfying `errors.Is(err, context.Canceled)`
are wrapped in a `*retry.StopError`. -/
def stopIfCanceled (e : GoErr) : GoErr :=
  if goIs e ctxCanceled then .stop e else e

/-- `PGX.rollbackWithErr` (part_007 lines 125-134): roll the transaction back
on a fresh grace-period context, wrap a non-nil rollback error, and
`errors.Join` it with the triggering error (which is always non-nil here).
The rollback call itself is recorded by the caller of this function. -/
def rollbackWithErr (rbErr : Option GoErr) (e : GoErr) : GoErr :=
  match rbErr with
  | none => .join1 e
  | some r => .join2 (.wrap "rolling back transaction" r) e

/-- The step loop of `PGX.Transaction` (part_007 lines 83-121) from step `i`
with `rem` steps left, followed by `tx.Commit` when all steps succeed.
Before each step the caller's context is checked; a detected cancellation
rolls back via `rollbackWithErr` (grace-period context) and returns a
`*retry.StopError`; a step error (panic-converted if needed) is marked stop
if it is `context.Canceled`, and rolled back via `rollbackWithErr`. -/
def runStepsFrom (a : AttemptEnv) (cErr : GoErr) : Nat → Nat → Option GoErr × List Call
  | _, 0 =>
    match a.commitErr with
    | some e => (some (.wrap "committing transaction" e), [.commit])
    | none => (none, [.commit])
  | i, rem + 1 =>
    if a.cancelledBefore i then
      (some (.stop (rollbackWithErr a.rollbackErr cErr)), [.rollback .grace])
    else
      match stepErrOf (a.stepOut i) with
      | none =>
        let r := runStepsFrom a cErr (i + 1) rem
        (r.1, .step i :: r.2)
      | some e =>
        (some (rollbackWithErr a.rollbackErr (stopIfCanceled e)), [.step i, .rollback .grace])

/-- One attempt of `PGX.Transaction` with `n` step functions (the closure
passed to `loop.DoContext`, part_007 lines 77-122): `pool.Begin` on the
caller's context, then the step loop.  A `Begin` failure is wrapped and
returned with nothing to roll back. -/
def runAttempt (a : AttemptEnv) (cErr : GoErr) (n : Nat) : Option GoErr × List Call :=
  match a.beginErr with
  | some e => (some (.wrap "starting transaction" e), [.begin])
  | none =>
    let r := runStepsFrom a cErr 0 n
    (r.1, .begin :: r.2)

/-- Modelled from the spec: `retry.Retry.DoContext` of `github.com/arsham/retry/v3`
is not part of this repository.  Per spec section 4 step 2 and section 6, the
scheduler repeatedly invokes the attempt closure up to the attempt budget,
returns nil on the first success, halts immediately when the closure's error
signals stop (the sentinel is "checked via type inspection" anywhere in the
wrap chain — the repository doc comment says "stops retrying if any of the
errors are wrapped in a *retry.StopError" — and "the Err inside the
*retry.StopError is returned"), halts when the caller's context is cancelled
between attempts, and otherwise returns the last attempt's error.  `i` is the
index of the current attempt and `rem` the remaining budget; the second
component collects each attempt's call trace. -/
def doContextFrom (env : Env) (n : Nat) : Nat → Nat → Option GoErr × List (List Call)
  | _, 0 => (none, [])
  | i, rem + 1 =>
    let r := runAttempt (env.attempt i) env.ctxErr n
    match r.1 with
    | none => (none, [r.2])
    | some e =>
      match firstStop e with
      | some inner => (some inner, [r.2])
      | none =>
        match rem with
        | 0 => (some e, [r.2])
        | rem' + 1 =>
          if env.cancelledBetween (i + 1) then
            (some env.ctxErr, [r.2])
          else
            let rest := doContextFrom env n (i + 1) (rem' + 1)
            (rest.1, r.2 :: rest.2)

/-- The executor object: whether the pool is set, and the retry budget
`loop.Attempts` (a Go `int`). -/
structure PGX where
  poolSet : Bool
  attempts : Int
deriving DecidableEq, Repr

/-- `PGX.Transaction` (part_007 lines 72-123): fail fast with
`ErrEmptyDatabase` when the pool is unset, otherwise run the attempt closure
under the scheduler.  `n` is the number of step functions. -/
def PGX.Transaction (p : PGX) (env : Env) (n : Nat) : Option GoErr × List (List Call) :=
  if p.poolSet then doContextFrom env n 0 p.attempts.toNat
  else (some ErrEmptyDatabase, [])

/-- Result of the constructor. -/
inductive NewResult where
  | ok : PGX → NewResult
  | fail : GoErr → NewResult
deriving DecidableEq, Repr

/-- `New` (part_007 lines 40-61): reject a nil pool with `ErrEmptyDatabase`;
otherwise build the executor and clamp `loop.Attempts` to at least 1.
`configured` is the value of `loop.Attempts` after the configuration
functions ran (the default, with no configuration, is 1).  The constructor
performs no pool calls, hence the always-empty trace. -/
def New (connSet : Bool) (configured : Int) : NewResult × List Call :=
  if connSet then
    (.ok { poolSet := true, attempts := if configured < 1 then 1 else configured }, [])
  else (.fail ErrEmptyDatabase, [])

/-- The step calls `step i, step (i+1), ..., step (i+m-1)`. -/
def stepsList (i m : Nat) : List Call :=
  (List.range m).map fun t => .step (i + t)

/-- Whether a call is a `Begin`. -/
def isBegin : Call → Bool
  | .begin => true
  | _ => false

/-- Whether a call is a `Commit`. -/
def isCommit : Call → Bool
  | .commit => true
  | _ => false

/-- An attempt oracle where everything succeeds. -/
def attemptOk : AttemptEnv :=
  { beginErr := none, cancelledBefore := fun _ => false,
    stepOut := fun _ => .ok, rollbackErr := none, commitErr := none }

/-- An attempt oracle whose steps fail with a plain error; rollback succeeds. -/
def attemptPlainFail : AttemptEnv :=
  { attemptOk with stepOut := fun _ => .err (.base "step failed") }

/-- An attempt oracle whose steps fail with a stop-wrapped error. -/
def attemptStopFail : AttemptEnv :=
  { attemptOk with stepOut := fun _ => .err (.stop (.base "cause")) }

/-- An attempt oracle where the caller's context is observed cancelled before
every step. -/
def attemptCancelled : AttemptEnv :=
  { attemptOk with cancelledBefore := fun _ => true }

/-- An attempt oracle whose steps panic with a non-error value. -/
def attemptPanics : AttemptEnv :=
  { attemptOk with stepOut := fun _ => .panicNonErr "boom" "stacktrace" }

/-- An attempt oracle whose steps fail and whose rollback also fails. -/
def attemptFailRb : AttemptEnv :=
  { attemptOk with stepOut := fun _ => .err (.base "step failed"),
                   rollbackErr := some (.base "rollback failed") }

/-- An attempt oracle where all steps succeed but commit fails. -/
def attemptCommitFail : AttemptEnv :=
  { attemptOk with commitErr := some (.base "commit failed") }

/-- An environment whose every attempt fails with a plain step error, the
caller's context never cancelled. -/
def envPlainFail : Env :=
  { attempt := fun _ => attemptPlainFail, cancelledBetween := fun _ => false,
    ctxErr := ctxCanceled }

/-- An environment whose every attempt fails with a stop-wrapped step error. -/
def envStopFail : Env :=
  { attempt := fun _ => attemptStopFail, cancelledBetween := fun _ => false,
    ctxErr := ctxCanceled }

/-- An environment whose first attempt fails plainly and whose second attempt
observes the caller's context as cancelled. -/
def envC3 : Env :=
  { attempt := fun i => if i = 0 then attemptPlainFail else attemptCancelled,
    cancelledBetween := fun _ => false, ctxErr := ctxCanceled }

/-- An environment whose every attempt panics in the first step. -/
def envPanics : Env :=
  { attempt := fun _ => attemptPanics, cancelledBetween := fun _ => false,
    ctxErr := ctxCanceled }

/-- An environment whose every attempt fails with both a step error and a
rollback error. -/
def envFailRb : Env :=
  { attempt := fun _ => attemptFailRb, cancelledBetween := fun _ => false,
    ctxErr := ctxCanceled }

/-- An environment whose first attempt fails plainly and whose second attempt
succeeds. -/
def envFailThenOk : Env :=
  { attempt := fun i => if i = 0 then attemptPlainFail else attemptOk,
    cancelledBetween := fun _ => false, ctxErr := ctxCanceled }

section Lemmas

theorem range_map_shift {α : Type} (f : Nat → α) (i m : Nat) :
    (List.range (m + 1)).map (fun d => f (i + d)) =
      f i :: (List.range m).map (fun d => f (i + 1 + d)) := by
  rw [List.range_succ_eq_map, List.map_cons, List.map_map]
  refine congrArg₂ _ (by rw [Nat.add_zero]) ?_
  refine List.map_congr_left fun t _ => ?_
  show f (i + (t + 1)) = f (i + 1 + t)
  exact congrArg f (by omega)

theorem stepsList_succ (i m : Nat) :
    stepsList i (m + 1) = .step i :: stepsList (i + 1) m :=
  range_map_shift (fun t => Call.step t) i m

theorem mem_stepsList {c : Call} {i m : Nat} (h : c ∈ stepsList i m) :
    ∃ t, c = .step t := by
  obtain ⟨t, -, rfl⟩ := List.mem_map.mp h
  exact ⟨i + t, rfl⟩

theorem countP_stepsList (p : Call → Bool) (hp : ∀ t, p (.step t) = false)
    (i m : Nat) : (stepsList i m).countP p = 0 := by
  refine List.countP_eq_zero.mpr fun a ha => ?_
  obtain ⟨t, rfl⟩ := mem_stepsList ha
  simp [hp]

theorem goIs_refl (e : GoErr) : goIs e e = true := by
  cases e <;> simp [goIs]

theorem goIs_rollbackWithErr_self (rb : Option GoErr) (e : GoErr) :
    goIs (rollbackWithErr rb e) e = true := by
  cases rb <;> simp [rollbackWithErr, goIs, goIs_refl]

theorem goIs_rollbackWithErr_of {e t : GoErr} (rb : Option GoErr)
    (h : goIs e t = true) : goIs (rollbackWithErr rb e) t = true := by
  cases rb <;> simp [rollbackWithErr, goIs, h]

theorem goIs_rollbackWithErr_rb (r : GoErr) (e : GoErr) :
    goIs (rollbackWithErr (some r) e) r = true := by
  simp [rollbackWithErr, goIs, goIs_refl]

theorem goIs_stopIfCanceled_of {e t : GoErr} (h : goIs e t = true) :
    goIs (stopIfCanceled e) t = true := by
  unfold stopIfCanceled
  split
  · simp [goIs, h]
  · exact h

theorem firstStop_eq_none {e : GoErr} (h : containsStop e = false) :
    firstStop e = none := by
  induction e with
  | base s => rfl
  | wrap m c ih => exact ih (by simpa [containsStop] using h)
  | wrap2 m c1 c2 ih1 ih2 =>
    simp only [containsStop, Bool.or_eq_false_iff] at h
    simp [firstStop, ih1 h.1, ih2 h.2, Option.orElse]
  | stop c ih => simp [containsStop] at h
  | join1 c ih => exact ih (by simpa [containsStop] using h)
  | join2 c1 c2 ih1 ih2 =>
    simp only [containsStop, Bool.or_eq_false_iff] at h
    simp [firstStop, ih1 h.1, ih2 h.2, Option.orElse]

theorem containsStop_rollbackWithErr {rb : Option GoErr} {e : GoErr}
    (hrb : ∀ r, rb = some r → containsStop r = false)
    (he : containsStop e = false) :
    containsStop (rollbackWithErr rb e) = false := by
  cases rb with
  | none => simpa [rollbackWithErr, containsStop] using he
  | some r => simp [rollbackWithErr, containsStop, he, hrb r rfl]

theorem runStepsFrom_ok (a : AttemptEnv) (cErr : GoErr) :
    ∀ m i, (∀ j, j < m → a.cancelledBefore (i + j) = false ∧ a.stepOut (i + j) = .ok) →
    runStepsFrom a cErr i m =
      (a.commitErr.map (.wrap "committing transaction"), stepsList i m ++ [.commit]) := by
  intro m
  induction m with
  | zero =>
    intro i _
    cases hc : a.commitErr <;> simp [runStepsFrom, stepsList, hc]
  | succ m ih =>
    intro i h
    obtain ⟨hcan, hok⟩ := h 0 (Nat.succ_pos m)
    rw [Nat.add_zero] at hcan hok
    have hrest : ∀ j, j < m →
        a.cancelledBefore (i + 1 + j) = false ∧ a.stepOut (i + 1 + j) = .ok := by
      intro j hj
      have := h (j + 1) (Nat.succ_lt_succ hj)
      rwa [show i + (j + 1) = i + 1 + j by omega] at this
    simp [runStepsFrom, hcan, hok, stepErrOf, ih (i + 1) hrest, stepsList_succ]

theorem runStepsFrom_err (a : AttemptEnv) (cErr : GoErr) :
    ∀ d i rem e, d < rem →
    (∀ j, j < d → a.cancelledBefore (i + j) = false ∧ a.stepOut (i + j) = .ok) →
    a.cancelledBefore (i + d) = false →
    stepErrOf (a.stepOut (i + d)) = some e →
    runStepsFrom a cErr i rem =
      (some (rollbackWithErr a.rollbackErr (stopIfCanceled e)),
       stepsList i d ++ [.step (i + d), .rollback .grace]) := by
  intro d
  induction d with
  | zero =>
    intro i rem e hlt _ hcan herr
    cases rem with
    | zero => omega
    | succ rem' =>
      rw [Nat.add_zero] at hcan herr
      simp [runStepsFrom, hcan, herr, stepsList]
  | succ d ih =>
    intro i rem e hlt h hcan herr
    cases rem with
    | zero => omega
    | succ rem' =>
      obtain ⟨hcan0, hok0⟩ := h 0 (Nat.succ_pos d)
      rw [Nat.add_zero] at hcan0 hok0
      have hrest : ∀ j, j < d →
          a.cancelledBefore (i + 1 + j) = false ∧ a.stepOut (i + 1 + j) = .ok := by
        intro j hj
        have := h (j + 1) (Nat.succ_lt_succ hj)
        rwa [show i + (j + 1) = i + 1 + j by omega] at this
      rw [show i + (d + 1) = i + 1 + d by omega] at hcan herr
      simp [runStepsFrom, hcan0, hok0, stepErrOf,
        ih (i + 1) rem' e (by omega) hrest hcan herr, stepsList_succ,
        show i + 1 + d = i + (d + 1) by omega]

theorem runStepsFrom_cancel (a : AttemptEnv) (cErr : GoErr) :
    ∀ d i rem, d < rem →
    (∀ j, j < d → a.cancelledBefore (i + j) = false ∧ a.stepOut (i + j) = .ok) →
    a.cancelledBefore (i + d) = true →
    runStepsFrom a cErr i rem =
      (some (.stop (rollbackWithErr a.rollbackErr cErr)),
       stepsList i d ++ [.rollback .grace]) := by
  intro d
  induction d with
  | zero =>
    intro i rem hlt _ hcan
    cases rem with
    | zero => omega
    | succ rem' =>
      rw [Nat.add_zero] at hcan
      simp [runStepsFrom, hcan, stepsList]
  | succ d ih =>
    intro i rem hlt h hcan
    cases rem with
    | zero => omega
    | succ rem' =>
      obtain ⟨hcan0, hok0⟩ := h 0 (Nat.succ_pos d)
      rw [Nat.add_zero] at hcan0 hok0
      have hrest : ∀ j, j < d →
          a.cancelledBefore (i + 1 + j) = false ∧ a.stepOut (i + 1 + j) = .ok := by
        intro j hj
        have := h (j + 1) (Nat.succ_lt_succ hj)
        rwa [show i + (j + 1) = i + 1 + j by omega] at this
      rw [show i + (d + 1) = i + 1 + d by omega] at hcan
      simp [runStepsFrom, hcan0, hok0, stepErrOf,
        ih (i + 1) rem' (by omega) hrest hcan, stepsList_succ]

theorem runAttempt_beginErr {a : AttemptEnv} (cErr : GoErr) (n : Nat) {b : GoErr}
    (hb : a.beginErr = some b) :
    runAttempt a cErr n = (some (.wrap "starting transaction" b), [.begin]) := by
  simp [runAttempt, hb]

theorem runAttempt_ok {a : AttemptEnv} (cErr : GoErr) {n : Nat}
    (hb : a.beginErr = none)
    (h : ∀ j, j < n → a.cancelledBefore j = false ∧ a.stepOut j = .ok) :
    runAttempt a cErr n =
      (a.commitErr.map (.wrap "committing transaction"),
       .begin :: (stepsList 0 n ++ [.commit])) := by
  have hh : ∀ j, j < n → a.cancelledBefore (0 + j) = false ∧ a.stepOut (0 + j) = .ok := by
    intro j hj
    simpa using h j hj
  simp [runAttempt, hb, runStepsFrom_ok a cErr n 0 hh]

theorem runAttempt_err {a : AttemptEnv} (cErr : GoErr) {n k : Nat} {e : GoErr}
    (hb : a.beginErr = none) (hk : k < n)
    (h : ∀ j, j < k → a.cancelledBefore j = false ∧ a.stepOut j = .ok)
    (hcan : a.cancelledBefore k = false)
    (herr : stepErrOf (a.stepOut k) = some e) :
    runAttempt a cErr n =
      (some (rollbackWithErr a.rollbackErr (stopIfCanceled e)),
       .begin :: (stepsList 0 k ++ [.step k, .rollback .grace])) := by
  have hh : ∀ j, j < k → a.cancelledBefore (0 + j) = false ∧ a.stepOut (0 + j) = .ok := by
    intro j hj
    simpa using h j hj
  have := runStepsFrom_err a cErr k 0 n e hk hh (by simpa using hcan) (by simpa using herr)
  simp only [Nat.zero_add] at this
  simp [runAttempt, hb, this]

theorem runAttempt_cancel {a : AttemptEnv} (cErr : GoErr) {n j : Nat}
    (hb : a.beginErr = none) (hj : j < n)
    (h : ∀ t, t < j → a.cancelledBefore t = false ∧ a.stepOut t = .ok)
    (hcan : a.cancelledBefore j = true) :
    runAttempt a cErr n =
      (some (.stop (rollbackWithErr a.rollbackErr cErr)),
       .begin :: (stepsList 0 j ++ [.rollback .grace])) := by
  have hh : ∀ t, t < j → a.cancelledBefore (0 + t) = false ∧ a.stepOut (0 + t) = .ok := by
    intro t ht
    simpa using h t ht
  have := runStepsFrom_cancel a cErr j 0 n hj hh (by simpa using hcan)
  simp only [Nat.zero_add] at this
  simp [runAttempt, hb, this]

theorem doContextFrom_stopHalt {env : Env} {n i : Nat} {e : GoErr} {tr : List Call}
    {inner : GoErr} (rem : Nat)
    (h : runAttempt (env.attempt i) env.ctxErr n = (some e, tr))
    (hs : firstStop e = some inner) :
    doContextFrom env n i (rem + 1) = (some inner, [tr]) := by
  simp [doContextFrom, h, hs]

theorem doContextFrom_okHalt {env : Env} {n i : Nat} {tr : List Call} (rem : Nat)
    (h : runAttempt (env.attempt i) env.ctxErr n = (none, tr)) :
    doContextFrom env n i (rem + 1) = (none, [tr]) := by
  simp [doContextFrom, h]

theorem doContextFrom_allFail {env : Env} {n : Nat} {e : GoErr} {tr : List Call}
    (h : ∀ d, runAttempt (env.attempt d) env.ctxErr n = (some e, tr))
    (hs : firstStop e = none)
    (hc : ∀ d, env.cancelledBetween d = false) :
    ∀ rem i, doContextFrom env n i (rem + 1) = (some e, List.replicate (rem + 1) tr) := by
  intro rem
  induction rem with
  | zero =>
    intro i
    simp [doContextFrom, h i, hs]
  | succ m ih =>
    intro i
    simp [doContextFrom, h i, hs, hc (i + 1), ih (i + 1), List.replicate_succ]

theorem doContextFrom_reachStop {env : Env} {n : Nat} (E : Nat → GoErr)
    (TR : Nat → List Call) :
    ∀ k i rem, k < rem →
    (∀ d, d < k → runAttempt (env.attempt (i + d)) env.ctxErr n =
        (some (E (i + d)), TR (i + d)) ∧ firstStop (E (i + d)) = none) →
    (∀ d, env.cancelledBetween d = false) →
    ∀ se str inner,
    runAttempt (env.attempt (i + k)) env.ctxErr n = (some se, str) →
    firstStop se = some inner →
    doContextFrom env n i rem =
      (some inner, (List.range k).map (fun d => TR (i + d)) ++ [str]) := by
  intro k
  induction k with
  | zero =>
    intro i rem hlt _ _ se str inner hstop hfs
    cases rem with
    | zero => omega
    | succ rem' =>
      rw [Nat.add_zero] at hstop
      rw [doContextFrom_stopHalt rem' hstop hfs]
      simp
  | succ k ih =>
    intro i rem hlt hpre hc se str inner hstop hfs
    cases rem with
    | zero => omega
    | succ rem' =>
      obtain ⟨h0, hf0⟩ := hpre 0 (Nat.succ_pos k)
      rw [Nat.add_zero] at h0 hf0
      cases rem' with
      | zero => omega
      | succ rem'' =>
        have hpre' : ∀ d, d < k → runAttempt (env.attempt (i + 1 + d)) env.ctxErr n =
            (some (E (i + 1 + d)), TR (i + 1 + d)) ∧ firstStop (E (i + 1 + d)) = none := by
          intro d hd
          have := hpre (d + 1) (Nat.succ_lt_succ hd)
          rwa [show i + (d + 1) = i + 1 + d by omega] at this
        have hstop' : runAttempt (env.attempt (i + 1 + k)) env.ctxErr n = (some se, str) := by
          rwa [show i + (k + 1) = i + 1 + k by omega] at hstop
        simp [doContextFrom, h0, hf0, hc (i + 1),
          ih (i + 1) (rem'' + 1) (by omega) hpre' hc se str inner hstop' hfs,
          range_map_shift]

theorem doContextFrom_reachOk {env : Env} {n : Nat} (E : Nat → GoErr)
    (TR : Nat → List Call) :
    ∀ k i rem, k < rem →
    (∀ d, d < k → runAttempt (env.attempt (i + d)) env.ctxErr n =
        (some (E (i + d)), TR (i + d)) ∧ firstStop (E (i + d)) = none) →
    (∀ d, env.cancelledBetween d = false) →
    ∀ str,
    runAttempt (env.attempt (i + k)) env.ctxErr n = (none, str) →
    doContextFrom env n i rem =
      (none, (List.range k).map (fun d => TR (i + d)) ++ [str]) := by
  intro k
  induction k with
  | zero =>
    intro i rem hlt _ _ str hok
    cases rem with
    | zero => omega
    | succ rem' =>
      rw [Nat.add_zero] at hok
      rw [doContextFrom_okHalt rem' hok]
      simp
  | succ k ih =>
    intro i rem hlt hpre hc str hok
    cases rem with
    | zero => omega
    | succ rem' =>
      obtain ⟨h0, hf0⟩ := hpre 0 (Nat.succ_pos k)
      rw [Nat.add_zero] at h0 hf0
      cases rem' with
      | zero => omega
      | succ rem'' =>
        have hpre' : ∀ d, d < k → runAttempt (env.attempt (i + 1 + d)) env.ctxErr n =
            (some (E (i + 1 + d)), TR (i + 1 + d)) ∧ firstStop (E (i + 1 + d)) = none := by
          intro d hd
          have := hpre (d + 1) (Nat.succ_lt_succ hd)
          rwa [show i + (d + 1) = i + 1 + d by omega] at this
        have hok' : runAttempt (env.attempt (i + 1 + k)) env.ctxErr n = (none, str) := by
          rwa [show i + (k + 1) = i + 1 + k by omega] at hok
        simp [doContextFrom, h0, hf0, hc (i + 1),
          ih (i + 1) (rem'' + 1) (by omega) hpre' hc str hok',
          range_map_shift]

theorem goIs_errPanic_of_panic {po : StepOut} {pe : GoErr}
    (hpo : isPanic po = true) (hpe : stepErrOf po = some pe) :
    goIs pe errPanic = true := by
  cases po with
  | ok => simp [isPanic] at hpo
  | err e => simp [isPanic] at hpo
  | panicErrVal x s =>
    obtain rfl : GoErr.wrap2 s errPanic x = pe := by simpa [stepErrOf] using hpe
    simp [goIs, errPanic]
  | panicNonErr m s =>
    obtain rfl : GoErr.wrap (m ++ "\n" ++ s) errPanic = pe := by simpa [stepErrOf] using hpe
    simp [goIs, errPanic]

theorem rollback_grace_runStepsFrom (a : AttemptEnv) (cErr : GoErr) :
    ∀ m i c, Call.rollback c ∈ (runStepsFrom a cErr i m).2 → c = .grace := by
  intro m
  induction m with
  | zero =>
    intro i c h
    cases hc : a.commitErr <;> simp [runStepsFrom, hc] at h
  | succ m ih =>
    intro i c h
    by_cases hcan : a.cancelledBefore i
    · simp [runStepsFrom, hcan] at h
      exact h
    · cases hse : stepErrOf (a.stepOut i) with
      | none =>
        have h2 : Call.rollback c ∈ Call.step i :: (runStepsFrom a cErr (i + 1) m).2 := by
          simpa [runStepsFrom, hcan, hse] using h
        rcases List.mem_cons.mp h2 with h3 | h3
        · exact absurd h3 (by simp)
        · exact ih (i + 1) c h3
      | some e =>
        simp [runStepsFrom, hcan, hse] at h
        exact h

theorem rollback_grace_runAttempt (a : AttemptEnv) (cErr : GoErr) (n : Nat) (c : CtxKind)
    (h : Call.rollback c ∈ (runAttempt a cErr n).2) : c = .grace := by
  cases hb : a.beginErr with
  | some b =>
    simp [runAttempt, hb] at h
  | none =>
    have h2 : Call.rollback c ∈ Call.begin :: (runStepsFrom a cErr 0 n).2 := by
      simpa [runAttempt, hb] using h
    rcases List.mem_cons.mp h2 with h3 | h3
    · exact absurd h3 (by simp)
    · exact rollback_grace_runStepsFrom a cErr n 0 c h3

theorem doContextFrom_succ (env : Env) (n i rem : Nat) :
    doContextFrom env n i (rem + 1) =
      (let r := runAttempt (env.attempt i) env.ctxErr n
       match r.1 with
       | none => (none, [r.2])
       | some e =>
         match firstStop e with
         | some inner => (some inner, [r.2])
         | none =>
           match rem with
           | 0 => (some e, [r.2])
           | rem' + 1 =>
             if env.cancelledBetween (i + 1) then (some env.ctxErr, [r.2])
             else
               let rest := doContextFrom env n (i + 1) (rem' + 1)
               (rest.1, r.2 :: rest.2)) := by
  rw [doContextFrom.eq_2]

theorem rollback_grace_doContextFrom (env : Env) (n : Nat) :
    ∀ rem i tr c, tr ∈ (doContextFrom env n i rem).2 → Call.rollback c ∈ tr →
    c = .grace := by
  intro rem
  induction rem with
  | zero =>
    intro i tr c htr _
    simp [doContextFrom] at htr
  | succ rem ih =>
    intro i tr c htr hmem
    rcases hr : runAttempt (env.attempt i) env.ctxErr n with ⟨res, tra⟩
    have hbase : tr = tra → c = CtxKind.grace := by
      rintro rfl
      exact rollback_grace_runAttempt (env.attempt i) env.ctxErr n c (by rw [hr]; exact hmem)
    rw [doContextFrom_succ, hr] at htr
    cases res with
    | none =>
      exact hbase (by simpa using htr)
    | some e =>
      cases hfs : firstStop e with
      | some inner =>
        simp only [hfs] at htr
        exact hbase (by simpa using htr)
      | none =>
        simp only [hfs] at htr
        cases rem with
        | zero =>
          exact hbase (by simpa using htr)
        | succ rem' =>
          by_cases hcb : env.cancelledBetween (i + 1)
          · simp only [hcb, if_true] at htr
            exact hbase (by simpa using htr)
          · simp only [hcb, Bool.false_eq_true, if_false] at htr
            rcases List.mem_cons.mp (by simpa using htr) with h3 | h3
            · exact hbase h3
            · exact ih (i + 1) tr c h3 hmem

theorem doContextFrom_lastFail {env : Env} {n i : Nat} {e : GoErr} {tr : List Call}
    (h : runAttempt (env.attempt i) env.ctxErr n = (some e, tr))
    (hs : firstStop e = none) :
    doContextFrom env n i 1 = (some e, [tr]) := by
  simp [doContextFrom, h, hs]

theorem countP_failTrace (k : Nat) :
    ((Call.begin :: (stepsList 0 k ++ [.step k, .rollback .grace])).countP isBegin = 1) ∧
    ((Call.begin :: (stepsList 0 k ++ [.step k, .rollback .grace])).countP isRollback = 1) ∧
    ((Call.begin :: (stepsList 0 k ++ [.step k, .rollback .grace])).countP isCommit = 0) := by
  refine ⟨?_, ?_, ?_⟩ <;>
    simp [List.countP_cons, List.countP_append,
      countP_stepsList isBegin (fun _ => rfl) 0 k,
      countP_stepsList isRollback (fun _ => rfl) 0 k,
      countP_stepsList isCommit (fun _ => rfl) 0 k,
      isBegin, isRollback, isCommit]

theorem runAttempt_zero (a : AttemptEnv) (cErr : GoErr) :
    runAttempt a cErr 0 =
      (match a.beginErr with
       | some b => (some (.wrap "starting transaction" b), [.begin])
       | none => (a.commitErr.map (.wrap "committing transaction"), [.begin, .commit])) := by
  cases hb : a.beginErr with
  | some b => simp [runAttempt, hb]
  | none => cases hc : a.commitErr <;> simp [runAttempt, runStepsFrom, hb, hc]

end Lemmas

/-- C1, counterexample: the claim states that when a step returns a non-nil
error while the caller's context is not cancelled, the executor passes the
caller's context to `Rollback`.  At this concrete input (one step returning a
plain error, context never cancelled, one attempt) the only `Rollback` call
receives the fresh grace-period context, and no `Rollback` with the caller's
context ever occurs, refuting the claim: `rollbackWithErr` always builds a
`context.WithTimeout(context.Background(), gracePeriod)` context. -/
theorem c1_caller_ctx_rollback_refuted :
    PGX.Transaction ⟨true, 1⟩ envPlainFail 1 =
      (some (.join1 (.base "step failed")),
       [[.begin, .step 0, .rollback .grace]]) ∧
    Call.rollback .caller ∉ [Call.begin, Call.step 0, Call.rollback CtxKind.grace] := by
  exact ⟨by decide, by decide⟩

/-- C1, amended: on every rollback path of `Transaction` — step error,
panic-converted error, or cancellation detected before a step — the executor
passes the fresh grace-period-bounded context to `Rollback`; the caller's
context is never passed to `Rollback`. -/
theorem c1_rollback_always_grace (p : PGX) (env : Env) (n : Nat) (tr : List Call)
    (c : CtxKind) (htr : tr ∈ (PGX.Transaction p env n).2)
    (hc : Call.rollback c ∈ tr) : c = .grace := by
  by_cases hp : p.poolSet
  · have h2 : tr ∈ (doContextFrom env n 0 p.attempts.toNat).2 := by
      simpa [PGX.Transaction, hp] using htr
    exact rollback_grace_doContextFrom env n p.attempts.toNat 0 tr c h2 hc
  · simp [PGX.Transaction, hp] at htr

/-- C1, witness for the amended theorem at a concrete input where a rollback
actually happens. -/
theorem c1_rollback_always_grace_witness :
    ([Call.begin, Call.step 0, Call.rollback CtxKind.grace] ∈
      (PGX.Transaction ⟨true, 1⟩ envPlainFail 1).2) ∧
    (Call.rollback CtxKind.grace ∈
      [Call.begin, Call.step 0, Call.rollback CtxKind.grace]) ∧
    CtxKind.grace = CtxKind.grace :=
  ⟨by decide, by decide,
   c1_rollback_always_grace ⟨true, 1⟩ envPlainFail 1
     [Call.begin, Call.step 0, Call.rollback CtxKind.grace] CtxKind.grace
     (by decide) (by decide)⟩

/-- C2: a step returning a stop-wrapped error on the first attempt of a
budget N ≥ 2 yields exactly one attempt (a single call trace containing one
`Begin` and one `Rollback`), and `Transaction` returns the original cause
(the `Err` carried by the `*retry.StopError`), so the cause is recoverable. -/
theorem c2_stop_error_single_attempt (env : Env) (n k N : Nat) (cause : GoErr)
    (hN : 2 ≤ N) (hk : k < n)
    (hbe : (env.attempt 0).beginErr = none)
    (hcb : ∀ j, (env.attempt 0).cancelledBefore j = false)
    (hpre : ∀ j, j < k → (env.attempt 0).stepOut j = .ok)
    (hstep : (env.attempt 0).stepOut k = .err (.stop cause))
    (hrb : ∀ r, (env.attempt 0).rollbackErr = some r → containsStop r = false)
    (hcause : goIs cause ctxCanceled = false) :
    PGX.Transaction ⟨true, (N : Int)⟩ env n =
      (some cause, [.begin :: (stepsList 0 k ++ [.step k, .rollback .grace])]) ∧
    (Call.begin :: (stepsList 0 k ++ [.step k, .rollback .grace])).countP isBegin = 1 ∧
    (Call.begin :: (stepsList 0 k ++ [.step k, .rollback .grace])).countP isRollback = 1 ∧
    goIs cause cause = true := by
  have herr : stepErrOf ((env.attempt 0).stepOut k) = some (.stop cause) := by
    rw [hstep]
    rfl
  have hcause2 : goIs cause (GoErr.base "context canceled") = false := by
    simpa [ctxCanceled] using hcause
  have hsic : stopIfCanceled (.stop cause) = .stop cause := by
    simp [stopIfCanceled, goIs, ctxCanceled, hcause2]
  have hatt := runAttempt_err (a := env.attempt 0) env.ctxErr hbe hk
      (fun j hj => ⟨hcb j, hpre j hj⟩) (hcb k) herr
  rw [hsic] at hatt
  have hfs : firstStop (rollbackWithErr (env.attempt 0).rollbackErr (.stop cause)) =
      some cause := by
    cases hr : (env.attempt 0).rollbackErr with
    | none => simp [rollbackWithErr, firstStop]
    | some r =>
      simp [rollbackWithErr, firstStop, firstStop_eq_none (hrb r hr), Option.orElse]
  obtain ⟨N', rfl⟩ : ∃ N', N = N' + 1 := ⟨N - 1, by omega⟩
  have ht : PGX.Transaction ⟨true, ((N' + 1 : Nat) : Int)⟩ env n =
      doContextFrom env n 0 (N' + 1) := by
    simp [PGX.Transaction]
  exact ⟨by rw [ht, doContextFrom_stopHalt N' hatt hfs], (countP_failTrace k).1,
    (countP_failTrace k).2.1, goIs_refl cause⟩

/-- C2, witness: a stop-wrapped error in the only step under a budget of 2. -/
theorem c2_stop_error_single_attempt_witness :
    PGX.Transaction ⟨true, ((2 : Nat) : Int)⟩ envStopFail 1 =
      (some (.base "cause"), [.begin :: (stepsList 0 0 ++ [.step 0, .rollback .grace])]) ∧
    (Call.begin :: (stepsList 0 0 ++ [.step 0, .rollback .grace])).countP isBegin = 1 ∧
    (Call.begin :: (stepsList 0 0 ++ [.step 0, .rollback .grace])).countP isRollback = 1 ∧
    goIs (.base "cause") (.base "cause") = true :=
  c2_stop_error_single_attempt envStopFail 1 0 2 (.base "cause") (by decide) (by decide)
    rfl (fun _ => rfl) (fun j hj => absurd hj (Nat.not_lt_zero j)) rfl
    (fun r h => Option.noConfusion h) (by decide)

/-- C3: when the caller's context is observed as cancelled before step `j`
of attempt `i0` (earlier attempts having failed with stop-free errors), the
executor rolls the open transaction back (grace-period context), the retry
loop halts with exactly `i0 + 1` attempts even though the budget `N` is
larger, and the returned error is the rollback-joined error from which
`ctx.Err()` is recoverable. -/
theorem c3_cancel_before_step_halts (env : Env) (n j i0 N : Nat)
    (E : Nat → GoErr) (TR : Nat → List Call)
    (hN : i0 < N) (hj : j < n)
    (hpre : ∀ d, d < i0 →
      runAttempt (env.attempt d) env.ctxErr n = (some (E d), TR d) ∧
        firstStop (E d) = none)
    (hcbet : ∀ d, env.cancelledBetween d = false)
    (hbe : (env.attempt i0).beginErr = none)
    (hsteps : ∀ t, t < j →
      (env.attempt i0).cancelledBefore t = false ∧ (env.attempt i0).stepOut t = .ok)
    (hcan : (env.attempt i0).cancelledBefore j = true) :
    PGX.Transaction ⟨true, (N : Int)⟩ env n =
      (some (rollbackWithErr (env.attempt i0).rollbackErr env.ctxErr),
       (List.range i0).map TR ++ [.begin :: (stepsList 0 j ++ [.rollback .grace])]) ∧
    ((List.range i0).map TR ++
      [Call.begin :: (stepsList 0 j ++ [.rollback .grace])]).length = i0 + 1 ∧
    goIs (rollbackWithErr (env.attempt i0).rollbackErr env.ctxErr) env.ctxErr = true := by
  have hatt := runAttempt_cancel (a := env.attempt i0) env.ctxErr hbe hj hsteps hcan
  have hpre0 : ∀ d, d < i0 → runAttempt (env.attempt (0 + d)) env.ctxErr n =
      (some (E (0 + d)), TR (0 + d)) ∧ firstStop (E (0 + d)) = none := by
    intro d hd
    simpa using hpre d hd
  have hmain := doContextFrom_reachStop E TR i0 0 N (by omega) hpre0 hcbet
      (.stop (rollbackWithErr (env.attempt i0).rollbackErr env.ctxErr))
      (.begin :: (stepsList 0 j ++ [.rollback .grace]))
      (rollbackWithErr (env.attempt i0).rollbackErr env.ctxErr)
      (by simpa using hatt) rfl
  have ht : PGX.Transaction ⟨true, (N : Int)⟩ env n = doContextFrom env n 0 N := by
    simp [PGX.Transaction]
  refine ⟨?_, by simp, goIs_rollbackWithErr_self _ _⟩
  rw [ht, hmain]
  simp

/-- C3, witness: first attempt fails plainly, cancellation is detected before
the single step of the second attempt under a budget of 5. -/
theorem c3_cancel_before_step_halts_witness :
    PGX.Transaction ⟨true, ((5 : Nat) : Int)⟩ envC3 1 =
      (some (rollbackWithErr (envC3.attempt 1).rollbackErr envC3.ctxErr),
       (List.range 1).map (fun _ => [Call.begin, .step 0, .rollback .grace]) ++
         [.begin :: (stepsList 0 0 ++ [.rollback .grace])]) ∧
    ((List.range 1).map (fun _ => [Call.begin, .step 0, .rollback .grace]) ++
      [Call.begin :: (stepsList 0 0 ++ [.rollback .grace])]).length = 1 + 1 ∧
    goIs (rollbackWithErr (envC3.attempt 1).rollbackErr envC3.ctxErr) envC3.ctxErr = true :=
  c3_cancel_before_step_halts envC3 1 0 1 5 (fun _ => .join1 (.base "step failed"))
    (fun _ => [Call.begin, .step 0, .rollback .grace]) (by decide) (by decide)
    (by decide) (fun _ => rfl) rfl (fun t ht => absurd ht (Nat.not_lt_zero t)) rfl

/-- C4: a step that panics on every attempt never propagates the panic out of
`Transaction` (the attempt closure always returns normally with an error):
the recovered panic is converted to an error carrying the `errPanic` marker
and the stack trace, the transaction is rolled back each attempt, and the
failure is retried like a plain step error for the whole budget `N`. -/
theorem c4_panic_recovered_retried (env : Env) (n k N : Nat) (po : StepOut)
    (pe : GoErr) (rb : Option GoErr)
    (hN : 1 ≤ N) (hk : k < n)
    (hbe : ∀ i, (env.attempt i).beginErr = none)
    (hcb : ∀ i t, (env.attempt i).cancelledBefore t = false)
    (hpre : ∀ i t, t < k → (env.attempt i).stepOut t = .ok)
    (hstep : ∀ i, (env.attempt i).stepOut k = po)
    (hrbv : ∀ i, (env.attempt i).rollbackErr = rb)
    (hcbet : ∀ d, env.cancelledBetween d = false)
    (hpo : isPanic po = true)
    (hpe : stepErrOf po = some pe)
    (hpe1 : containsStop pe = false)
    (hpe2 : goIs pe ctxCanceled = false)
    (hrb : ∀ r, rb = some r → containsStop r = false) :
    PGX.Transaction ⟨true, (N : Int)⟩ env n =
      (some (rollbackWithErr rb pe),
       List.replicate N (.begin :: (stepsList 0 k ++ [.step k, .rollback .grace]))) ∧
    goIs (rollbackWithErr rb pe) errPanic = true ∧
    (List.replicate N (Call.begin :: (stepsList 0 k ++ [.step k, .rollback .grace]))).length = N ∧
    (Call.begin :: (stepsList 0 k ++ [.step k, .rollback .grace])).countP isRollback = 1 := by
  have hsic : stopIfCanceled pe = pe := by
    simp [stopIfCanceled, hpe2]
  have hattAll : ∀ i, runAttempt (env.attempt i) env.ctxErr n =
      (some (rollbackWithErr rb pe),
       .begin :: (stepsList 0 k ++ [.step k, .rollback .grace])) := by
    intro i
    have herr : stepErrOf ((env.attempt i).stepOut k) = some pe := by
      rw [hstep i]
      exact hpe
    have h := runAttempt_err (a := env.attempt i) env.ctxErr (hbe i) hk
        (fun t ht => ⟨hcb i t, hpre i t ht⟩) (hcb i k) herr
    rw [hrbv i, hsic] at h
    exact h
  have hfsn : firstStop (rollbackWithErr rb pe) = none :=
    firstStop_eq_none (containsStop_rollbackWithErr hrb hpe1)
  obtain ⟨N2, rfl⟩ : ∃ N2, N = N2 + 1 := ⟨N - 1, by omega⟩
  have ht : PGX.Transaction ⟨true, ((N2 + 1 : Nat) : Int)⟩ env n =
      doContextFrom env n 0 (N2 + 1) := by
    simp [PGX.Transaction]
  refine ⟨?_, goIs_rollbackWithErr_of rb (goIs_errPanic_of_panic hpo hpe), by simp,
    (countP_failTrace k).2.1⟩
  rw [ht, doContextFrom_allFail hattAll hfsn hcbet N2 0]

/-- C4, witness: a step panicking with a non-error value on every attempt,
budget 2. -/
theorem c4_panic_recovered_retried_witness :
    PGX.Transaction ⟨true, ((2 : Nat) : Int)⟩ envPanics 1 =
      (some (rollbackWithErr none (.wrap ("boom" ++ "\n" ++ "stacktrace") errPanic)),
       List.replicate 2 (.begin :: (stepsList 0 0 ++ [.step 0, .rollback .grace]))) ∧
    goIs (rollbackWithErr none (.wrap ("boom" ++ "\n" ++ "stacktrace") errPanic)) errPanic = true ∧
    (List.replicate 2 (Call.begin :: (stepsList 0 0 ++ [.step 0, .rollback .grace]))).length = 2 ∧
    (Call.begin :: (stepsList 0 0 ++ [.step 0, .rollback .grace])).countP isRollback = 1 :=
  c4_panic_recovered_retried envPanics 1 0 2 (.panicNonErr "boom" "stacktrace")
    (.wrap ("boom" ++ "\n" ++ "stacktrace") errPanic) none (by decide) (by decide)
    (fun _ => rfl) (fun _ _ => rfl) (fun _ t ht => absurd ht (Nat.not_lt_zero t))
    (fun _ => rfl) (fun _ => rfl) (fun _ => rfl) rfl rfl (by decide) (by decide)
    (fun r h => Option.noConfusion h)

/-- C5: when a step fails with error `e` and the rollback also fails with
`r`, the error returned by the attempt is `errors.Join` of the wrapped
rollback error and the (possibly stop-wrapped) step error, from which both
`e` and `r` are recoverable via `errors.Is`; when the step error is plain
(stop-free, non-cancellation), `Transaction` itself returns that joined
error after exhausting the budget. -/
theorem c5_rollback_error_merged (env : Env) (n k N : Nat) (e r : GoErr)
    (hN : 1 ≤ N) (hk : k < n)
    (hbe : ∀ i, (env.attempt i).beginErr = none)
    (hcb : ∀ i t, (env.attempt i).cancelledBefore t = false)
    (hpre : ∀ i t, t < k → (env.attempt i).stepOut t = .ok)
    (hstep : ∀ i, (env.attempt i).stepOut k = .err e)
    (hrbv : ∀ i, (env.attempt i).rollbackErr = some r)
    (hcbet : ∀ d, env.cancelledBetween d = false) :
    (runAttempt (env.attempt 0) env.ctxErr n).1 =
      some (rollbackWithErr (some r) (stopIfCanceled e)) ∧
    goIs (rollbackWithErr (some r) (stopIfCanceled e)) e = true ∧
    goIs (rollbackWithErr (some r) (stopIfCanceled e)) r = true ∧
    (containsStop e = false → containsStop r = false → goIs e ctxCanceled = false →
      (PGX.Transaction ⟨true, (N : Int)⟩ env n).1 =
        some (rollbackWithErr (some r) e)) := by
  have herr0 : stepErrOf ((env.attempt 0).stepOut k) = some e := by
    rw [hstep 0]
    rfl
  have hatt0 := runAttempt_err (a := env.attempt 0) env.ctxErr (hbe 0) hk
      (fun t ht => ⟨hcb 0 t, hpre 0 t ht⟩) (hcb 0 k) herr0
  rw [hrbv 0] at hatt0
  refine ⟨by rw [hatt0],
    goIs_rollbackWithErr_of _ (goIs_stopIfCanceled_of (goIs_refl e)),
    goIs_rollbackWithErr_rb r _, ?_⟩
  intro h1 h2 h3
  have hsic : stopIfCanceled e = e := by
    simp [stopIfCanceled, h3]
  have hattAll : ∀ i, runAttempt (env.attempt i) env.ctxErr n =
      (some (rollbackWithErr (some r) e),
       .begin :: (stepsList 0 k ++ [.step k, .rollback .grace])) := by
    intro i
    have herr : stepErrOf ((env.attempt i).stepOut k) = some e := by
      rw [hstep i]
      rfl
    have h := runAttempt_err (a := env.attempt i) env.ctxErr (hbe i) hk
        (fun t ht => ⟨hcb i t, hpre i t ht⟩) (hcb i k) herr
    rw [hrbv i, hsic] at h
    exact h
  have hfsn : firstStop (rollbackWithErr (some r) e) = none :=
    firstStop_eq_none
      (containsStop_rollbackWithErr (fun r2 hr2 => Option.some.inj hr2 ▸ h2) h1)
  obtain ⟨N2, rfl⟩ : ∃ N2, N = N2 + 1 := ⟨N - 1, by omega⟩
  have ht : PGX.Transaction ⟨true, ((N2 + 1 : Nat) : Int)⟩ env n =
      doContextFrom env n 0 (N2 + 1) := by
    simp [PGX.Transaction]
  rw [ht, doContextFrom_allFail hattAll hfsn hcbet N2 0]

/-- C5, witness: single step failing with a plain error, failing rollback,
budget 1. -/
theorem c5_rollback_error_merged_witness :
    (runAttempt (envFailRb.attempt 0) envFailRb.ctxErr 1).1 =
      some (rollbackWithErr (some (.base "rollback failed"))
        (stopIfCanceled (.base "step failed"))) ∧
    goIs (rollbackWithErr (some (.base "rollback failed"))
      (stopIfCanceled (.base "step failed"))) (.base "step failed") = true ∧
    goIs (rollbackWithErr (some (.base "rollback failed"))
      (stopIfCanceled (.base "step failed"))) (.base "rollback failed") = true ∧
    (containsStop (.base "step failed") = false →
      containsStop (.base "rollback failed") = false →
      goIs (.base "step failed") ctxCanceled = false →
      (PGX.Transaction ⟨true, ((1 : Nat) : Int)⟩ envFailRb 1).1 =
        some (rollbackWithErr (some (.base "rollback failed")) (.base "step failed"))) :=
  c5_rollback_error_merged envFailRb 1 0 1 (.base "step failed") (.base "rollback failed")
    (by decide) (by decide) (fun _ => rfl) (fun _ _ => rfl)
    (fun _ t ht => absurd ht (Nat.not_lt_zero t)) (fun _ => rfl) (fun _ => rfl)
    (fun _ => rfl)

/-- C6: with attempt budget N ≥ 1, a step sequence whose step `k` always
fails with the same plain error `e` (stop-free, non-cancellation) makes
`Transaction` perform exactly N attempts, each attempt's trace containing
exactly one `Begin`, exactly one `Rollback` and no `Commit`, and return the
error produced by the N-th (last) attempt, namely the rollback-joined step
error. -/
theorem c6_plain_error_exhausts_attempts (env : Env) (n k N : Nat) (e : GoErr)
    (rb : Option GoErr) (tr : List Call)
    (hN : 1 ≤ N) (hk : k < n)
    (hbe : ∀ i, (env.attempt i).beginErr = none)
    (hcb : ∀ i t, (env.attempt i).cancelledBefore t = false)
    (hpre : ∀ i t, t < k → (env.attempt i).stepOut t = .ok)
    (hstep : ∀ i, (env.attempt i).stepOut k = .err e)
    (hrbv : ∀ i, (env.attempt i).rollbackErr = rb)
    (hcbet : ∀ d, env.cancelledBetween d = false)
    (hst : containsStop e = false)
    (hrb : ∀ r, rb = some r → containsStop r = false)
    (hcc : goIs e ctxCanceled = false)
    (htr : tr = .begin :: (stepsList 0 k ++ [.step k, .rollback .grace])) :
    PGX.Transaction ⟨true, (N : Int)⟩ env n =
      (some (rollbackWithErr rb e), List.replicate N tr) ∧
    (List.replicate N tr).length = N ∧
    tr.countP isBegin = 1 ∧ tr.countP isRollback = 1 ∧ tr.countP isCommit = 0 := by
  subst htr
  have hsic : stopIfCanceled e = e := by
    simp [stopIfCanceled, hcc]
  have hattAll : ∀ i, runAttempt (env.attempt i) env.ctxErr n =
      (some (rollbackWithErr rb e),
       .begin :: (stepsList 0 k ++ [.step k, .rollback .grace])) := by
    intro i
    have herr : stepErrOf ((env.attempt i).stepOut k) = some e := by
      rw [hstep i]
      rfl
    have h := runAttempt_err (a := env.attempt i) env.ctxErr (hbe i) hk
        (fun t ht => ⟨hcb i t, hpre i t ht⟩) (hcb i k) herr
    rw [hrbv i, hsic] at h
    exact h
  have hfsn : firstStop (rollbackWithErr rb e) = none :=
    firstStop_eq_none (containsStop_rollbackWithErr hrb hst)
  obtain ⟨N2, rfl⟩ : ∃ N2, N = N2 + 1 := ⟨N - 1, by omega⟩
  have ht : PGX.Transaction ⟨true, ((N2 + 1 : Nat) : Int)⟩ env n =
      doContextFrom env n 0 (N2 + 1) := by
    simp [PGX.Transaction]
  refine ⟨?_, by simp, (countP_failTrace k).1, (countP_failTrace k).2.1,
    (countP_failTrace k).2.2⟩
  rw [ht, doContextFrom_allFail hattAll hfsn hcbet N2 0]

/-- C6, witness: one always-failing step, budget 2. -/
theorem c6_plain_error_exhausts_attempts_witness :
    PGX.Transaction ⟨true, ((2 : Nat) : Int)⟩ envPlainFail 1 =
      (some (rollbackWithErr none (.base "step failed")),
       List.replicate 2 (.begin :: (stepsList 0 0 ++ [.step 0, .rollback .grace]))) ∧
    (List.replicate 2 (Call.begin :: (stepsList 0 0 ++ [.step 0, .rollback .grace]))).length = 2 ∧
    (Call.begin :: (stepsList 0 0 ++ [.step 0, .rollback .grace])).countP isBegin = 1 ∧
    (Call.begin :: (stepsList 0 0 ++ [.step 0, .rollback .grace])).countP isRollback = 1 ∧
    (Call.begin :: (stepsList 0 0 ++ [.step 0, .rollback .grace])).countP isCommit = 0 :=
  c6_plain_error_exhausts_attempts envPlainFail 1 0 2 (.base "step failed") none
    (Call.begin :: (stepsList 0 0 ++ [.step 0, .rollback .grace]))
    (by decide) (by decide) (fun _ => rfl) (fun _ _ => rfl)
    (fun _ t ht => absurd ht (Nat.not_lt_zero t)) (fun _ => rfl) (fun _ => rfl)
    (fun _ => rfl) (by decide) (fun r h => Option.noConfusion h) (by decide) rfl

/-- C7: attempts 0..ka-1 fail with a stop-free error and attempt ka succeeds
(all steps return nil and the commit succeeds); with budget N > ka,
`Transaction` performs exactly ka + 1 attempts and returns nil. -/
theorem c7_fail_then_success (env : Env) (n N ka : Nat) (e : GoErr) (tr : List Call)
    (hka : ka < N)
    (hfail : ∀ d, d < ka → runAttempt (env.attempt d) env.ctxErr n = (some e, tr))
    (hst : firstStop e = none)
    (hcbet : ∀ d, env.cancelledBetween d = false)
    (hbe : (env.attempt ka).beginErr = none)
    (hsteps : ∀ t, t < n →
      (env.attempt ka).cancelledBefore t = false ∧ (env.attempt ka).stepOut t = .ok)
    (hcommit : (env.attempt ka).commitErr = none) :
    PGX.Transaction ⟨true, (N : Int)⟩ env n =
      (none, List.replicate ka tr ++ [.begin :: (stepsList 0 n ++ [.commit])]) ∧
    (List.replicate ka tr ++ [Call.begin :: (stepsList 0 n ++ [.commit])]).length = ka + 1 := by
  have hok := runAttempt_ok (a := env.attempt ka) env.ctxErr hbe hsteps
  rw [hcommit] at hok
  simp only [Option.map_none'] at hok
  have hpre0 : ∀ d, d < ka → runAttempt (env.attempt (0 + d)) env.ctxErr n =
      (some ((fun _ => e) (0 + d)), (fun _ => tr) (0 + d)) ∧
        firstStop ((fun _ => e) (0 + d)) = none := by
    intro d hd
    exact ⟨by simpa using hfail d hd, hst⟩
  have hmain := doContextFrom_reachOk (fun _ => e) (fun _ => tr) ka 0 N hka hpre0 hcbet
      (.begin :: (stepsList 0 n ++ [.commit])) (by simpa using hok)
  have hconst : (List.range ka).map (fun _ => tr) = List.replicate ka tr := by
    simp [List.map_const', List.length_range]
  have ht : PGX.Transaction ⟨true, (N : Int)⟩ env n = doContextFrom env n 0 N := by
    simp [PGX.Transaction]
  refine ⟨?_, by simp⟩
  rw [ht, hmain, hconst]

/-- C7, witness: first attempt fails plainly, second succeeds, budget 3. -/
theorem c7_fail_then_success_witness :
    PGX.Transaction ⟨true, ((3 : Nat) : Int)⟩ envFailThenOk 1 =
      (none, List.replicate 1 [Call.begin, .step 0, .rollback .grace] ++
        [.begin :: (stepsList 0 1 ++ [.commit])]) ∧
    (List.replicate 1 [Call.begin, .step 0, .rollback .grace] ++
      [Call.begin :: (stepsList 0 1 ++ [.commit])]).length = 1 + 1 :=
  c7_fail_then_success envFailThenOk 1 3 1 (.join1 (.base "step failed"))
    [Call.begin, .step 0, .rollback .grace] (by decide) (by decide) (by decide)
    (fun _ => rfl) rfl (by decide) rfl

/-- C8: the constructor `New` returns `ErrEmptyDatabase` when the connection
provider is nil (making no pool calls, so `Begin` is never invoked), and
otherwise produces an executor whose effective attempt count is the
configured value when it is at least 1 and is 1 when the configured value is
less than 1 (so the effective count is always at least 1). -/
theorem c8_constructor_normalizes (c : Int) :
    New false c = (.fail ErrEmptyDatabase, []) ∧
    New true c = (.ok ⟨true, if c < 1 then 1 else c⟩, []) ∧
    (∀ p : PGX, New true c = (.ok p, []) → 1 ≤ p.attempts) := by
  refine ⟨rfl, rfl, ?_⟩
  intro p hp
  have h1 := congrArg Prod.fst hp
  simp only [New, if_true] at h1
  injection h1 with h2
  rw [← h2]
  by_cases h : c < 1
  · simp [h]
  · simp [h]
    omega

/-- C9: an attempt in which every step returns nil but `Commit` fails
returns a plain error (not stop-wrapped, hence retryable) wrapping the
commit error, and its trace contains no `Rollback` at all. -/
theorem c9_commit_error_plain (a : AttemptEnv) (cErr ce : GoErr) (n : Nat)
    (hbe : a.beginErr = none)
    (hsteps : ∀ t, t < n → a.cancelledBefore t = false ∧ a.stepOut t = .ok)
    (hcommit : a.commitErr = some ce)
    (hst : containsStop ce = false) :
    runAttempt a cErr n =
      (some (.wrap "committing transaction" ce),
       .begin :: (stepsList 0 n ++ [.commit])) ∧
    goIs (.wrap "committing transaction" ce) ce = true ∧
    containsStop (.wrap "committing transaction" ce) = false ∧
    (runAttempt a cErr n).2.countP isRollback = 0 := by
  have hok := runAttempt_ok (a := a) cErr hbe hsteps
  rw [hcommit] at hok
  simp only [Option.map_some'] at hok
  refine ⟨hok, by simp [goIs, goIs_refl], by simp [containsStop, hst], ?_⟩
  rw [hok]
  simp [List.countP_cons, List.countP_append,
    countP_stepsList isRollback (fun _ => rfl) 0 n, isRollback]

/-- C9, witness: one successful step, failing commit. -/
theorem c9_commit_error_plain_witness :
    runAttempt attemptCommitFail ctxCanceled 1 =
      (some (.wrap "committing transaction" (.base "commit failed")),
       .begin :: (stepsList 0 1 ++ [.commit])) ∧
    goIs (.wrap "committing transaction" (.base "commit failed")) (.base "commit failed") = true ∧
    containsStop (.wrap "committing transaction" (.base "commit failed")) = false ∧
    (runAttempt attemptCommitFail ctxCanceled 1).2.countP isRollback = 0 :=
  c9_commit_error_plain attemptCommitFail ctxCanceled (.base "commit failed") 1 rfl
    (by decide) rfl (by decide)

/-- C10: with zero step functions an attempt is still a full attempt: it
calls `Begin` once, and when `Begin` succeeds it calls `Commit` once, with no
`Rollback` and no per-step cancellation check (the equations below hold for
every oracle, including ones whose context is cancelled before every step);
with a budget of 1, `Transaction` returns nil exactly when `Begin` and
`Commit` both succeed. -/
theorem c10_zero_steps_full_attempt (env : Env) (a : AttemptEnv) (cErr : GoErr) :
    runAttempt a cErr 0 =
      (match a.beginErr with
       | some b => (some (.wrap "starting transaction" b), [.begin])
       | none => (a.commitErr.map (.wrap "committing transaction"), [.begin, .commit])) ∧
    ((PGX.Transaction ⟨true, 1⟩ env 0).1 = none ↔
      (env.attempt 0).beginErr = none ∧ (env.attempt 0).commitErr = none) ∧
    (runAttempt a cErr 0).2.countP isRollback = 0 := by
  refine ⟨runAttempt_zero a cErr, ?_, ?_⟩
  · have ht : PGX.Transaction ⟨true, 1⟩ env 0 = doContextFrom env 0 0 1 := by
      simp [PGX.Transaction]
    rw [ht]
    have hr := runAttempt_zero (env.attempt 0) env.ctxErr
    cases hb : (env.attempt 0).beginErr with
    | some b =>
      rw [hb] at hr
      cases hfs : firstStop (.wrap "starting transaction" b) with
      | some inner => rw [doContextFrom_stopHalt 0 hr hfs]; simp [hb]
      | none => rw [doContextFrom_lastFail hr hfs]; simp [hb]
    | none =>
      rw [hb] at hr
      cases hc : (env.attempt 0).commitErr with
      | some ce =>
        rw [hc] at hr
        simp only [Option.map_some'] at hr
        cases hfs : firstStop (.wrap "committing transaction" ce) with
        | some inner => rw [doContextFrom_stopHalt 0 hr hfs]; simp [hc]
        | none => rw [doContextFrom_lastFail hr hfs]; simp [hc]
      | none =>
        rw [hc] at hr
        simp only [Option.map_none'] at hr
        rw [doContextFrom_okHalt 0 hr]
        simp [hb, hc]
  · rw [runAttempt_zero a cErr]
    cases hb : a.beginErr <;> simp [List.countP_cons, isRollback]

end DbTools
